import Mathlib

/-!
Verification of the `lagy::TransformIterator` adaptor.

The repository ships the adaptor's test suite (`TransformIteratorTests.cpp`);
the adaptor itself lives in `TransformIterator.h`, whose text is not part of
the sources at hand, so the adaptor is modelled from the specification.  An
adaptor wraps an underlying position (iterator) by value together with a
stored transform callable; dereference invokes the transform on the position,
advance moves the position, comparison compares positions.  Because the
stored transform may mutate the underlying sequence (the bidirectional
example appends to the pointed-to string), the transform is modelled as a
state-passing function on a sequence-state type `σ`.
-/

namespace Lagy

/-- Modelled from the spec: `TransformIterator.h` is missing from the
sources (only its test file is present).  The adaptor
`lagy::TransformIterator` stores a copy of the wrapped `position` and a copy
of the `transform` callable.  The transform receives the position and may
mutate the underlying sequence, so it is a state-passing function
`Pos → σ → α × σ` where `σ` is the sequence state and `α` the result type. -/
structure TransformIterator (Pos σ α : Type) where
  position : Pos
  transform : Pos → σ → α × σ

namespace TransformIterator

variable {Pos σ α : Type}

/-- Modelled from the spec: dereference (`*it`) invokes `transform(position)`
and returns its result unchanged — a direct pass-through, re-invoked on
every call (no caching). -/
def deref (it : TransformIterator Pos σ α) (st : σ) : α × σ :=
  it.transform it.position st

/-- Modelled from the spec: two adaptors compare equal iff their wrapped
positions are equal, regardless of their stored transforms. -/
def beq [DecidableEq Pos] (a b : TransformIterator Pos σ α) : Bool :=
  decide (a.position = b.position)

/-- Modelled from the spec: `a != b` is the logical negation of `a == b`. -/
def bne [DecidableEq Pos] (a b : TransformIterator Pos σ α) : Bool :=
  !(a.beq b)

/-- Modelled from the spec: an adaptor compares equal against a bare
underlying-position value iff its wrapped position equals that value
(`a == rawPosition`). -/
def beqPos [DecidableEq Pos] (a : TransformIterator Pos σ α) (p : Pos) : Bool :=
  decide (a.position = p)

/-- Modelled from the spec: `rawPosition == a`, the symmetric argument
order. -/
def posBeq [DecidableEq Pos] (p : Pos) (a : TransformIterator Pos σ α) : Bool :=
  decide (p = a.position)

/-- Modelled from the spec: `a != rawPosition`. -/
def bnePos [DecidableEq Pos] (a : TransformIterator Pos σ α) (p : Pos) : Bool :=
  !(a.beqPos p)

/-- Modelled from the spec: `rawPosition != a`. -/
def posBne [DecidableEq Pos] (p : Pos) (a : TransformIterator Pos σ α) : Bool :=
  !(posBeq p a)

/-- Modelled from the spec: `++it` advances the wrapped position to its
successor (via the underlying position's own advance operation `next`) in
place.  The C++ operator returns a reference to the same instance; in this
value-semantics model the operation's result is the updated adaptor itself,
not a separately constructed copy. -/
def preIncr (next : Pos → Pos) (it : TransformIterator Pos σ α) :
    TransformIterator Pos σ α :=
  { it with position := next it.position }

/-- Modelled from the spec: `it++` captures a copy of the adaptor in its
pre-advance state, advances the adaptor, and returns the capture.  The
result pair is (adaptor after the advance, captured pre-advance copy). -/
def postIncr (next : Pos → Pos) (it : TransformIterator Pos σ α) :
    TransformIterator Pos σ α × TransformIterator Pos σ α :=
  (preIncr next it, it)

/-- Modelled from the spec: `--it` retreats the wrapped position to its
predecessor in place (available only when the underlying position supports
backward movement, supplied here as `prev`); the result is the updated
adaptor itself, mirroring the reference return. -/
def preDecr (prev : Pos → Pos) (it : TransformIterator Pos σ α) :
    TransformIterator Pos σ α :=
  { it with position := prev it.position }

/-- Modelled from the spec: `it--` captures the pre-retreat state, retreats
in place, and returns the capture.  The result pair is (adaptor after the
retreat, captured pre-retreat copy). -/
def postDecr (prev : Pos → Pos) (it : TransformIterator Pos σ α) :
    TransformIterator Pos σ α × TransformIterator Pos σ α :=
  (preDecr prev it, it)

/-- Modelled from the spec: explicit conversion back to the underlying
position type yields a copy of the wrapped position, losing the
transform. -/
def toWrapped (it : TransformIterator Pos σ α) : Pos :=
  it.position

end TransformIterator

/-- Modelled from the spec: operations of the adaptor other than
dereference, used to describe runs of the adaptor that never invoke the
stored transform.  `fwd`/`back` are the in-place (reference-returning)
advance and retreat; `fwdPost`/`backPost` keep the adaptor produced by the
post-ops (the advanced/retreated one). -/
inductive MoveOp : Type
  | fwd : MoveOp
  | fwdPost : MoveOp
  | back : MoveOp
  | backPost : MoveOp
  deriving DecidableEq

/-- Modelled from the spec: one adaptor operation from the language that
also includes dereference (`read`), so that the effect of a run on the
underlying sequence state can be stated.  Every operation threads the
sequence state; only `read` invokes the stored transform. -/
inductive AdaptOp : Type
  | read : AdaptOp
  | move : MoveOp → AdaptOp
  deriving DecidableEq

/-- Modelled from the spec: execute one position-moving operation on the
adaptor; these operations only move the wrapped position. -/
def execMove {Pos σ α : Type} (next prev : Pos → Pos) (op : MoveOp)
    (it : TransformIterator Pos σ α) : TransformIterator Pos σ α :=
  match op with
  | .fwd => it.preIncr next
  | .fwdPost => (it.postIncr next).1
  | .back => it.preDecr prev
  | .backPost => (it.postDecr prev).1

/-- Modelled from the spec: execute a list of adaptor operations, threading
the sequence state; `read` invokes the stored transform (which may mutate
the state), the move operations move the wrapped position. -/
def execOps {Pos σ α : Type} (next prev : Pos → Pos) :
    List AdaptOp → TransformIterator Pos σ α → σ → TransformIterator Pos σ α × σ
  | [], it, st => (it, st)
  | .read :: ops, it, st => execOps next prev ops it (it.deref st).2
  | .move m :: ops, it, st => execOps next prev ops (execMove next prev m it) st

/-- Modelled from the spec: the generic for-each traversal the test suite
runs over `[adaptorBegin, adaptorEnd)` — while the adaptor compares unequal
to the raw end position, dereference it, collect the value, and
prefix-advance.  Positions are indices (`Nat`), advance is the successor;
the first argument is fuel bounding the loop. -/
def runForEach {σ α : Type} :
    Nat → TransformIterator Nat σ α → Nat → σ → List α × σ
  | 0, _, _, st => ([], st)
  | fuel + 1, it, endPos, st =>
    if it.beqPos endPos then ([], st)
    else
      let r := it.deref st
      let rest := runForEach fuel (it.preIncr Nat.succ) endPos r.2
      (r.1 :: rest.1, rest.2)

/-- Manually mapping the transform over a list of positions, threading the
sequence state — the reference behavior that iterating the adaptor range
must reproduce. -/
def mapPositions {σ α : Type} (tf : Nat → σ → α × σ) :
    List Nat → σ → List α × σ
  | [], st => ([], st)
  | p :: ps, st =>
    let r := tf p st
    let rest := mapPositions tf ps r.2
    (r.1 :: rest.1, rest.2)

/-- The concrete integer sequence `[1, 2, 3, 4, 5]` of the test suite,
indexed by `Nat` positions. -/
def exContainer : List Int := [1, 2, 3, 4, 5]

/-- The concrete transform `x -> *x + 1` of the test suite: reads the
element at the position and adds one, leaving the sequence unchanged. -/
def exTransform (i : Nat) (st : List Int) : Int × List Int :=
  (st.getD i 0 + 1, st)

/-- The concrete bidirectional string sequence `["abcd", "efgh", "ijkl"]`
of the test suite. -/
def strContainer : List String := ["abcd", "efgh", "ijkl"]

/-- The concrete side-effecting transform of the test suite: appends
`"zzz"` to the pointed-to string and returns the mutated string. -/
def appendTransform (i : Nat) (st : List String) : String × List String :=
  let s := (st.getD i "") ++ "zzz"
  (s, st.set i s)

/-- A concrete pure transform on `Nat` positions, used to instantiate
general theorems at concrete inputs. -/
def idTransform (p : Nat) (st : Nat) : Nat × Nat :=
  (p, st)

/-- A second concrete pure transform on `Nat` positions, distinct from
`idTransform`, used to show transform-independence at concrete inputs. -/
def succTransform (p : Nat) (st : Nat) : Nat × Nat :=
  (p + 1, st)

theorem runForEach_eq_mapPositions {σ α : Type} (tf : Nat → σ → α × σ)
    (n : Nat) :
    ∀ (b : Nat) (st : σ),
      runForEach n (TransformIterator.mk b tf) (b + n) st =
        mapPositions tf (List.range' b n) st := by
  induction n with
  | zero => intro b st; rfl
  | succ n ih =>
    intro b st
    have hb : ¬ b = b + (n + 1) := by omega
    have hbeq : (TransformIterator.mk b tf).beqPos (b + (n + 1)) = false := by
      simp [TransformIterator.beqPos, hb]
    simp only [runForEach, hbeq, Bool.false_eq_true, if_false,
      TransformIterator.deref, TransformIterator.preIncr, List.range'_succ,
      mapPositions]
    rw [show b + (n + 1) = (b + 1) + n from by omega, ih]

theorem execOps_state_eq {Pos σ α : Type} (next prev : Pos → Pos)
    (ops : List AdaptOp) (it : TransformIterator Pos σ α) (st : σ)
    (h : ∀ op ∈ ops, op ≠ AdaptOp.read) :
    (execOps next prev ops it st).2 = st := by
  induction ops generalizing it st with
  | nil => rfl
  | cons op ops ih =>
    cases op with
    | read => exact absurd rfl (h AdaptOp.read (List.mem_cons_self _ _))
    | move m =>
      exact ih (execMove next prev m it) st
        (fun o ho => h o (List.mem_cons_of_mem _ ho))

theorem execMove_position_congr {Pos σ α : Type} (next prev : Pos → Pos)
    (m : MoveOp) (a b : TransformIterator Pos σ α)
    (h : a.position = b.position) :
    (execMove next prev m a).position = (execMove next prev m b).position := by
  cases m <;>
    simp [execMove, TransformIterator.preIncr, TransformIterator.postIncr,
      TransformIterator.preDecr, TransformIterator.postDecr, h]

theorem execOps_position_congr {Pos σ α : Type} (next prev : Pos → Pos)
    (ops : List AdaptOp) (a b : TransformIterator Pos σ α) (st st' : σ)
    (hpos : a.position = b.position)
    (h : ∀ op ∈ ops, op ≠ AdaptOp.read) :
    (execOps next prev ops a st).1.position =
      (execOps next prev ops b st').1.position := by
  induction ops generalizing a b st st' with
  | nil => exact hpos
  | cons op ops ih =>
    cases op with
    | read => exact absurd rfl (h AdaptOp.read (List.mem_cons_self _ _))
    | move m =>
      exact ih (execMove next prev m a) (execMove next prev m b) st st'
        (execMove_position_congr next prev m a b hpos)
        (fun o ho => h o (List.mem_cons_of_mem _ ho))

theorem execMove_transform_eq {Pos σ α : Type} (next prev : Pos → Pos)
    (m : MoveOp) (it : TransformIterator Pos σ α) :
    (execMove next prev m it).transform = it.transform := by
  cases m <;> rfl

theorem execOps_transform_eq {Pos σ α : Type} (next prev : Pos → Pos)
    (ops : List AdaptOp) (it : TransformIterator Pos σ α) (st : σ)
    (h : ∀ op ∈ ops, op ≠ AdaptOp.read) :
    (execOps next prev ops it st).1.transform = it.transform := by
  induction ops generalizing it st with
  | nil => rfl
  | cons op ops ih =>
    cases op with
    | read => exact absurd rfl (h AdaptOp.read (List.mem_cons_self _ _))
    | move m =>
      exact (ih (execMove next prev m it) st
        (fun o ho => h o (List.mem_cons_of_mem _ ho))).trans
        (execMove_transform_eq next prev m it)

/-- C1: for every sequence state, transform `f`, and position `p`,
dereferencing the adaptor constructed from `p` and `f` invokes the
transform on the position itself (not on the dereferenced element) and
returns its result unchanged: `*adaptor(p, f) = f(p)`. -/
theorem deref_of_mk_eq_transform_at_position (Pos σ α : Type) (p : Pos)
    (f : Pos → σ → α × σ) (st : σ) :
    (TransformIterator.mk p f).deref st = f p st :=
  rfl

/-- C2: equality and inequality are determined solely by the wrapped
position: two adaptors with possibly different transforms compare equal iff
their positions are equal, inequality is the negation, and comparisons
against a raw position value hold in both argument orders iff the wrapped
position compares accordingly. -/
theorem comparisons_depend_only_on_position (Pos σ α : Type)
    [DecidableEq Pos] (p q : Pos) (f g : Pos → σ → α × σ) :
    ((TransformIterator.mk p f).beq (TransformIterator.mk q g) = true ↔ p = q) ∧
    ((TransformIterator.mk p f).bne (TransformIterator.mk q g) =
      !((TransformIterator.mk p f).beq (TransformIterator.mk q g))) ∧
    ((TransformIterator.mk p f).beqPos q = true ↔ p = q) ∧
    (TransformIterator.posBeq q (TransformIterator.mk p f) = true ↔ q = p) ∧
    ((TransformIterator.mk p f).bnePos q =
      !((TransformIterator.mk p f).beqPos q)) ∧
    (TransformIterator.posBne q (TransformIterator.mk p f) =
      !(TransformIterator.posBeq q (TransformIterator.mk p f))) := by
  refine ⟨?_, rfl, ?_, ?_, rfl, rfl⟩ <;>
    simp [TransformIterator.beq, TransformIterator.beqPos,
      TransformIterator.posBeq]

/-- C3: prefix advance moves the wrapped position to its successor in
place, keeps the stored transform, and the operation's result is the
updated adaptor itself (the C++ reference return is modelled by the
operation returning its own post-advance state), which dereferences to the
transform applied at the new position. -/
theorem preIncr_advances_in_place (Pos σ α : Type) (next : Pos → Pos)
    (it : TransformIterator Pos σ α) (st : σ) :
    (it.preIncr next).position = next it.position ∧
    (it.preIncr next).transform = it.transform ∧
    (it.preIncr next).deref st = it.transform (next it.position) st :=
  ⟨rfl, rfl, rfl⟩

/-- C4: postfix advance returns the pre-advance capture while advancing the
adaptor: the capture dereferences to the transform applied at the original
position, the advanced adaptor sits at the successor position, and the
capture compares equal to the original raw position. -/
theorem postIncr_returns_pre_advance_capture (Pos σ α : Type)
    [DecidableEq Pos] (next : Pos → Pos) (it : TransformIterator Pos σ α)
    (st : σ) :
    ((it.postIncr next).2.deref st = it.transform it.position st) ∧
    ((it.postIncr next).1.position = next it.position) ∧
    ((it.postIncr next).2.beqPos it.position = true) :=
  ⟨rfl, rfl, by simp [TransformIterator.postIncr, TransformIterator.beqPos]⟩

/-- C5: iterating the adaptor range `[adaptor(b, tf), adaptor(e, tf))` with
the generic for-each traversal and collecting each dereferenced value
produces exactly the sequence obtained by mapping the transform manually
over the positions `[b, e)`; in particular, on the sequence `[1,2,3,4,5]`
with transform `x -> *x + 1` the collected sequence is `[2,3,4,5,6]`. -/
theorem forEach_collects_mapped_sequence {σ α : Type} (tf : Nat → σ → α × σ)
    (b e : Nat) (st : σ) (h : b ≤ e) :
    runForEach (e - b) (TransformIterator.mk b tf) e st =
      mapPositions tf (List.range' b (e - b)) st ∧
    (runForEach 5 (TransformIterator.mk 0 exTransform) 5 exContainer).1 =
      [2, 3, 4, 5, 6] := by
  constructor
  · have hrun := runForEach_eq_mapPositions tf (e - b) b st
    rwa [Nat.add_sub_cancel' h] at hrun
  · decide

/-- Witness for C5: the hypothesis `0 ≤ 5` holds and the theorem applies to
the concrete test sequence `[1,2,3,4,5]`. -/
theorem forEach_collects_mapped_sequence_witness :
    (0 : Nat) ≤ 5 ∧
    (runForEach (5 - 0) (TransformIterator.mk 0 exTransform) 5 exContainer =
      mapPositions exTransform (List.range' 0 (5 - 0)) exContainer ∧
     (runForEach 5 (TransformIterator.mk 0 exTransform) 5 exContainer).1 =
      [2, 3, 4, 5, 6]) :=
  ⟨by decide,
    forEach_collects_mapped_sequence exTransform 0 5 exContainer (by decide)⟩

/-- C6: dereference is never cached — every dereference re-invokes the
stored transform on the current position; on the string sequence
`["abcd","efgh","ijkl"]` with the transform that appends `"zzz"` to the
pointed-to string, the first dereference yields `"abcdzzz"` and a second
dereference (on the state the first one produced) re-applies the side
effect and yields `"abcdzzzzzz"`. -/
theorem deref_reinvokes_transform (Pos σ α : Type)
    (it : TransformIterator Pos σ α) (st : σ) :
    it.deref st = it.transform it.position st ∧
    ((TransformIterator.mk 0 appendTransform).deref strContainer).1 =
      "abcdzzz" ∧
    ((TransformIterator.mk 0 appendTransform).deref
        (((TransformIterator.mk 0 appendTransform).deref strContainer).2)).1 =
      "abcdzzzzzz" :=
  ⟨rfl, by decide, by decide⟩

/-- C7: when the underlying position supports backward movement, retreat
mirrors advance: prefix retreat moves the wrapped position to its
predecessor in place (the result being the updated adaptor itself), prefix
advance followed by prefix retreat restores the original adaptor, and
postfix retreat returns the pre-retreat capture while the adaptor moves to
the predecessor. -/
theorem retreat_mirrors_advance (Pos σ α : Type) (next prev : Pos → Pos)
    (it : TransformIterator Pos σ α)
    (h : prev (next it.position) = it.position) :
    (it.preDecr prev).position = prev it.position ∧
    (it.preDecr prev).transform = it.transform ∧
    (it.preIncr next).preDecr prev = it ∧
    (it.postDecr prev).2 = it ∧
    (it.postDecr prev).1.position = prev it.position := by
  refine ⟨rfl, rfl, ?_, rfl, rfl⟩
  cases it with
  | mk p f =>
    exact congrArg (fun q => TransformIterator.mk q f) h

/-- Witness for C7: on `Nat` positions with successor/predecessor the
round-trip hypothesis holds at position 3 and the theorem applies. -/
theorem retreat_mirrors_advance_witness :
    Nat.pred (Nat.succ 3) = 3 ∧
    (((TransformIterator.mk 3 idTransform).preDecr Nat.pred).position =
        Nat.pred 3 ∧
     ((TransformIterator.mk 3 idTransform).preDecr Nat.pred).transform =
        idTransform ∧
     ((TransformIterator.mk 3 idTransform).preIncr Nat.succ).preDecr
        Nat.pred = TransformIterator.mk 3 idTransform ∧
     ((TransformIterator.mk 3 idTransform).postDecr Nat.pred).2 =
        TransformIterator.mk 3 idTransform ∧
     ((TransformIterator.mk 3 idTransform).postDecr Nat.pred).1.position =
        Nat.pred 3) :=
  ⟨rfl, retreat_mirrors_advance Nat Nat Nat Nat.succ Nat.pred
    (TransformIterator.mk 3 idTransform) rfl⟩

/-- C8: explicit conversion of a freshly constructed adaptor back to the
underlying position type yields exactly the position it was constructed
from, so construction followed by conversion is the identity on
positions. -/
theorem toWrapped_of_mk (Pos σ α : Type) (p : Pos) (f : Pos → σ → α × σ) :
    (TransformIterator.mk p f).toWrapped = p :=
  rfl

/-- C10: the stored transform is invoked only by dereference: any run of
adaptor operations that contains no dereference leaves the underlying
sequence state unchanged, produces a final position independent of which
transform is stored, and keeps the stored transform; comparison and
conversion likewise depend only on the wrapped position. -/
theorem transform_invoked_only_by_deref (Pos σ α : Type) [DecidableEq Pos]
    (next prev : Pos → Pos) (ops : List AdaptOp) (p q : Pos)
    (f g : Pos → σ → α × σ) (st : σ)
    (h : ∀ op ∈ ops, op ≠ AdaptOp.read) :
    (execOps next prev ops (TransformIterator.mk p f) st).2 = st ∧
    (execOps next prev ops (TransformIterator.mk p f) st).1.position =
      (execOps next prev ops (TransformIterator.mk p g) st).1.position ∧
    (execOps next prev ops (TransformIterator.mk p f) st).1.transform = f ∧
    ((TransformIterator.mk p f).beq (TransformIterator.mk q g) =
      decide (p = q)) ∧
    ((TransformIterator.mk p f).toWrapped = p) :=
  ⟨execOps_state_eq next prev ops _ st h,
   execOps_position_congr next prev ops _ _ st st rfl h,
   execOps_transform_eq next prev ops _ st h,
   rfl, rfl⟩

/-- Witness for C10: a concrete dereference-free run (prefix advance,
postfix advance, prefix retreat, postfix retreat) on `Nat` positions with
two different stored transforms. -/
theorem transform_invoked_only_by_deref_witness :
    (∀ op ∈ [AdaptOp.move MoveOp.fwd, AdaptOp.move MoveOp.fwdPost,
        AdaptOp.move MoveOp.back, AdaptOp.move MoveOp.backPost],
      op ≠ AdaptOp.read) ∧
    ((execOps Nat.succ Nat.pred
        [AdaptOp.move MoveOp.fwd, AdaptOp.move MoveOp.fwdPost,
         AdaptOp.move MoveOp.back, AdaptOp.move MoveOp.backPost]
        (TransformIterator.mk 0 idTransform) 7).2 = 7 ∧
     (execOps Nat.succ Nat.pred
        [AdaptOp.move MoveOp.fwd, AdaptOp.move MoveOp.fwdPost,
         AdaptOp.move MoveOp.back, AdaptOp.move MoveOp.backPost]
        (TransformIterator.mk 0 idTransform) 7).1.position =
      (execOps Nat.succ Nat.pred
        [AdaptOp.move MoveOp.fwd, AdaptOp.move MoveOp.fwdPost,
         AdaptOp.move MoveOp.back, AdaptOp.move MoveOp.backPost]
        (TransformIterator.mk 0 succTransform) 7).1.position ∧
     (execOps Nat.succ Nat.pred
        [AdaptOp.move MoveOp.fwd, AdaptOp.move MoveOp.fwdPost,
         AdaptOp.move MoveOp.back, AdaptOp.move MoveOp.backPost]
        (TransformIterator.mk 0 idTransform) 7).1.transform = idTransform ∧
     ((TransformIterator.mk 0 idTransform).beq
        (TransformIterator.mk 1 succTransform) = decide ((0 : Nat) = 1)) ∧
     ((TransformIterator.mk (0 : Nat) idTransform).toWrapped = 0)) :=
  ⟨by decide,
    transform_invoked_only_by_deref Nat Nat Nat Nat.succ Nat.pred
      [AdaptOp.move MoveOp.fwd, AdaptOp.move MoveOp.fwdPost,
       AdaptOp.move MoveOp.back, AdaptOp.move MoveOp.backPost]
      0 1 idTransform succTransform 7 (by decide)⟩

end Lagy
